import Mathlib

/-!
Verification development for the Housing-Price-Prediction repository.

The Python sources (`src/data_processing.py`, `src/models.py`,
`src/visualization.py`) operate on pandas DataFrames whose cells are IEEE
floating-point numbers, with `NaN` marking a missing value.  We embed the
cell domain as an inductive type `Val` over exact rationals with explicit
positive/negative infinity and NaN, and a DataFrame as a list of column
names together with a list of rows.  Fallible operations return
`Except PErr`, mirroring the `ValueError` / `KeyError` exceptions raised by
the source.
-/

set_option maxHeartbeats 1000000

namespace Housing

/-- A pandas cell value: a finite number, positive or negative infinity, or
NaN.  NaN doubles as the missing-value marker, as in pandas float columns. -/
inductive Val where
  | num : ℚ → Val
  | pinf : Val
  | ninf : Val
  | nan : Val
deriving DecidableEq, Repr

namespace Val

/-- NaN test (pandas `isnull` on a float cell). -/
def isNan : Val → Bool
  | nan => true
  | _ => false

/-- IEEE negation. -/
def neg : Val → Val
  | num q => num (-q)
  | pinf => ninf
  | ninf => pinf
  | nan => nan

/-- IEEE addition (infinities of opposite sign give NaN). -/
def add : Val → Val → Val
  | nan, _ => nan
  | _, nan => nan
  | num a, num b => num (a + b)
  | num _, pinf => pinf
  | num _, ninf => ninf
  | pinf, num _ => pinf
  | ninf, num _ => ninf
  | pinf, pinf => pinf
  | ninf, ninf => ninf
  | pinf, ninf => nan
  | ninf, pinf => nan

/-- IEEE subtraction. -/
def sub (a b : Val) : Val := add a (neg b)

/-- IEEE multiplication (zero times infinity gives NaN). -/
def mul : Val → Val → Val
  | nan, _ => nan
  | _, nan => nan
  | num a, num b => num (a * b)
  | num a, pinf => if 0 < a then pinf else if a < 0 then ninf else nan
  | num a, ninf => if 0 < a then ninf else if a < 0 then pinf else nan
  | pinf, num b => if 0 < b then pinf else if b < 0 then ninf else nan
  | ninf, num b => if 0 < b then ninf else if b < 0 then pinf else nan
  | pinf, pinf => pinf
  | ninf, ninf => pinf
  | pinf, ninf => ninf
  | ninf, pinf => ninf

/-- IEEE division with an (unsigned, i.e. positive) zero: a nonzero number
divided by zero gives a signed infinity, zero by zero gives NaN. -/
def div : Val → Val → Val
  | nan, _ => nan
  | _, nan => nan
  | num a, num b =>
    if b = 0 then (if 0 < a then pinf else if a < 0 then ninf else nan)
    else num (a / b)
  | num _, pinf => num 0
  | num _, ninf => num 0
  | pinf, num b => if 0 ≤ b then pinf else ninf
  | ninf, num b => if 0 ≤ b then ninf else pinf
  | pinf, pinf => nan
  | pinf, ninf => nan
  | ninf, pinf => nan
  | ninf, ninf => nan

/-- IEEE `≤` comparison: any comparison involving NaN is false. -/
def leB : Val → Val → Bool
  | nan, _ => false
  | _, nan => false
  | num a, num b => decide (a ≤ b)
  | ninf, _ => true
  | _, pinf => true
  | pinf, _ => false
  | num _, ninf => false

/-- IEEE `≥` comparison. -/
def geB (a b : Val) : Bool := leB b a

end Val

/-- A DataFrame: ordered column names and rows of cells.  Row `r` holds the
cell of column `j` at position `j`. -/
structure DF where
  cols : List String
  rows : List (List Val)
deriving DecidableEq, Repr

/-- Well-formedness: every row has exactly one cell per column.  (Real
DataFrames are rectangular by construction.) -/
def DF.WF (df : DF) : Prop := ∀ r ∈ df.rows, r.length = df.cols.length

instance (df : DF) : Decidable df.WF := by
  unfold DF.WF; infer_instance

/-- The values of column `i`, top to bottom (out-of-range reads give NaN;
they never occur on well-formed frames). -/
def colVals (df : DF) (i : Nat) : List Val :=
  df.rows.map (fun r => r.getD i Val.nan)

/-- Index of the first column with the given name (pandas column lookup). -/
def idxOfCol : List String → String → Option Nat
  | [], _ => none
  | c :: cs, x => if c = x then some 0 else (idxOfCol cs x).map (· + 1)

/-- Insert into a sorted list by the IEEE `≤` (used on NaN-free lists only,
where it is total). -/
def insertVal (v : Val) : List Val → List Val
  | [] => [v]
  | w :: ws => if Val.leB v w then v :: w :: ws else w :: insertVal v ws

/-- Insertion sort by IEEE `≤`. -/
def sortVals (l : List Val) : List Val := l.foldr insertVal []

/-- The non-NaN values of a column, sorted ascending (what pandas
`quantile`, `median` and `mode` operate on: NaNs are skipped). -/
def sortedNums (l : List Val) : List Val :=
  sortVals (l.filter (fun v => !v.isNan))

/-- Linearly interpolated quantile of the non-NaN values, as computed by
pandas `Series.quantile(q)` (numpy linear interpolation); NaN when there is
no data. -/
def quantileQ (q : ℚ) (l : List Val) : Val :=
  match sortedNums l with
  | [] => Val.nan
  | x :: xs =>
    let s := x :: xs
    let pos : ℚ := q * (xs.length : ℚ)
    let i : Nat := pos.floor.toNat
    let frac : ℚ := pos - (i : ℚ)
    if frac = 0 then s.getD i Val.nan
    else Val.add (s.getD i Val.nan)
      (Val.mul (Val.num frac) (Val.sub (s.getD (i + 1) Val.nan) (s.getD i Val.nan)))

/-- Sum of a list of cells, left to right (pandas `Series.sum` over the
non-NaN values). -/
def sumVals (l : List Val) : Val := l.foldl Val.add (Val.num 0)

/-- Mean of the non-NaN values (pandas `Series.mean`); NaN on empty data. -/
def meanVal (l : List Val) : Val :=
  let nn := l.filter (fun v => !v.isNan)
  if nn.isEmpty then Val.nan
  else Val.div (sumVals nn) (Val.num (nn.length : ℚ))

/-- Multiplicity of a value in a list. -/
def countVal (l : List Val) (v : Val) : Nat :=
  (l.filter (fun x => x == v)).length

/-- Scan the sorted candidates keeping the first one of maximal
multiplicity. -/
def modeScan (nn : List Val) : List Val → Val → Nat → Val
  | [], best, _ => best
  | v :: vs, best, bc =>
    if bc < countVal nn v then modeScan nn vs v (countVal nn v)
    else modeScan nn vs best bc

/-- First modal value of the non-NaN data: pandas `Series.mode()[0]`, the
smallest among the most frequent values; `none` when there is no data (where
the source's `mode()[0]` raises `KeyError: 0`). -/
def modeFirst (l : List Val) : Option Val :=
  match sortedNums l with
  | [] => none
  | x :: xs => some (modeScan (x :: xs) xs x (countVal (x :: xs) x))

/-- The statistic a fill strategy uses on a column's values: the source's
`mean()` / `median()` / `mode()[0]` respectively (`median` is the
0.5-quantile).  NaN when pandas would produce NaN (or, for `mode`, raise). -/
def statValue (s : String) (vs : List Val) : Val :=
  if s = "mean" then meanVal vs
  else if s = "median" then quantileQ (1/2) vs
  else (modeFirst vs).getD Val.nan

/-- `fillna`: replace each NaN entry by the given value. -/
def fillWith (vs : List Val) (w : Val) : List Val :=
  vs.map (fun v => if v.isNan then w else v)

/-- Errors raised by the source: `ValueError` with a message, `KeyError`
with the offending key. -/
inductive PErr where
  | valueError : String → PErr
  | keyError : String → PErr
deriving DecidableEq, Repr

/-- Overwrite column `i` with the given values (`df[col] = series`; values
are aligned row by row). -/
def setColIdx (df : DF) (i : Nat) (nv : List Val) : DF :=
  ⟨df.cols, List.zipWith (fun r v => r.set i v) df.rows nv⟩

/-- One iteration of the missing-value loop of `preprocess_data` on column
`i`: if the column has any missing value, fill it according to the
strategy, or fail — `ValueError` for an unrecognized strategy, `KeyError`
(key 0) when `mode()` is empty because the column is all-NaN. -/
def fillCol (df : DF) (i : Nat) (s : String) : Except PErr DF :=
  if (colVals df i).any Val.isNan then
    if s = "mean" then
      .ok (setColIdx df i (fillWith (colVals df i) (meanVal (colVals df i))))
    else if s = "median" then
      .ok (setColIdx df i (fillWith (colVals df i) (quantileQ (1/2) (colVals df i))))
    else if s = "mode" then
      match modeFirst (colVals df i) with
      | some m => .ok (setColIdx df i (fillWith (colVals df i) m))
      | none => .error (.keyError "0")
    else .error (.valueError ("Fill strategy " ++ s ++ " not recognized."))
  else .ok df

/-- Run the missing-value loop over the given column indices in order. -/
def fillCols (df : DF) (s : String) : List Nat → Except PErr DF
  | [] => .ok df
  | i :: is =>
    match fillCol df i s with
    | .ok d => fillCols d s is
    | .error e => .error e

/-- The missing-value loop of `preprocess_data` over all (numeric) columns. -/
def fillLoop (df : DF) (s : String) : Except PErr DF :=
  fillCols df s (List.range df.cols.length)

/-- `df.rename(columns={median_house_value: Price})` (the guarding `if` in
the source does not change the result). -/
def renameDF (df : DF) : DF :=
  ⟨df.cols.map (fun c => if c = "median_house_value" then "Price" else c), df.rows⟩

/-- Column assignment by name, `df[c] = series`: overwrite the column when
the name exists, otherwise append a new column on the right. -/
def setCol (df : DF) (c : String) (nv : List Val) : DF :=
  match idxOfCol df.cols c with
  | some i => setColIdx df i nv
  | none => ⟨df.cols ++ [c], List.zipWith (fun r v => r ++ [v]) df.rows nv⟩

/-- The values of a named column (empty when absent; only read under a
successful lookup). -/
def colValsByName (df : DF) (c : String) : List Val :=
  match idxOfCol df.cols c with
  | some i => colVals df i
  | none => []

/-- The second derived-feature assignment of `preprocess_data`:
`df[Bedrooms_Per_Room] = df[total_bedrooms] / df[total_rooms]`, with
`KeyError` when a read column is absent and element-wise IEEE division
(division by zero unguarded). -/
def addDerived2 (df1 : DF) : Except PErr DF :=
  match idxOfCol df1.cols "total_bedrooms" with
  | none => .error (.keyError "total_bedrooms")
  | some ib =>
    match idxOfCol df1.cols "total_rooms" with
    | none => .error (.keyError "total_rooms")
    | some it2 =>
      .ok (setCol df1 "Bedrooms_Per_Room"
        (List.zipWith Val.div (colVals df1 ib) (colVals df1 it2)))

/-- The derived-feature block of `preprocess_data`:
`df[Rooms_Per_Household] = df[total_rooms] / df[households]` followed by
the `Bedrooms_Per_Room` assignment. -/
def addDerived (df : DF) : Except PErr DF :=
  match idxOfCol df.cols "total_rooms" with
  | none => .error (.keyError "total_rooms")
  | some it =>
    match idxOfCol df.cols "households" with
    | none => .error (.keyError "households")
    | some ih =>
      addDerived2 (setCol df "Rooms_Per_Household"
        (List.zipWith Val.div (colVals df it) (colVals df ih)))

/-- `preprocess_data` from `src/data_processing.py`: copy (pure values make
the copy implicit), rename the target column, impute missing numeric
values, add the two derived ratio features. -/
def preprocess_data (df : DF) (fill_strategy : String) : Except PErr DF :=
  match fillLoop (renameDF df) fill_strategy with
  | .ok d => addDerived d
  | .error e => .error e

/-- Lower IQR fence of column `i`: `Q1 - 1.5 * (Q3 - Q1)`. -/
def fenceLB (df : DF) (i : Nat) : Val :=
  let q1 := quantileQ (1/4) (colVals df i)
  let q3 := quantileQ (3/4) (colVals df i)
  Val.sub q1 (Val.mul (Val.num (3/2)) (Val.sub q3 q1))

/-- Upper IQR fence of column `i`: `Q3 + 1.5 * (Q3 - Q1)`. -/
def fenceUB (df : DF) (i : Nat) : Val :=
  let q1 := quantileQ (1/4) (colVals df i)
  let q3 := quantileQ (3/4) (colVals df i)
  Val.add q3 (Val.mul (Val.num (3/2)) (Val.sub q3 q1))

/-- The row predicate `(df[col] >= lower_bound) & (df[col] <= upper_bound)`
(false for NaN cells, as in pandas). -/
def inFenceB (df : DF) (i : Nat) (r : List Val) : Bool :=
  Val.geB (r.getD i Val.nan) (fenceLB df i) && Val.leB (r.getD i Val.nan) (fenceUB df i)

/-- One iteration of the `handle_outliers` loop: keep the rows inside the
fence of column `i`, the fence being computed from the current
(carried-forward) data. -/
def filterStep (df : DF) (i : Nat) : DF :=
  ⟨df.cols, df.rows.filter (inFenceB df i)⟩

/-- Filter on a named column (no-op when absent; only reached after the
presence check). -/
def stepCol (df : DF) (c : String) : DF :=
  match idxOfCol df.cols c with
  | some i => filterStep df i
  | none => df

/-- `handle_outliers` from `src/data_processing.py`: for each requested
column in order, fail with `KeyError` if it is absent, else drop the rows
outside its IQR fence. -/
def handle_outliers : DF → List String → Except PErr DF
  | df, [] => .ok df
  | df, c :: cs =>
    if c ∈ df.cols then handle_outliers (stepCol df c) cs
    else .error (.keyError c)

/-- The pure sequential filter `handle_outliers` computes when every
requested column is present. -/
def seqFilter (df : DF) (cs : List String) : DF := cs.foldl stepCol df

/-! ### List-level helper lemmas -/

theorem getD_set_ne {α : Type} {l : List α} {i j : Nat} {a d : α} (h : i ≠ j) :
    (l.set i a).getD j d = l.getD j d := by
  simp [List.getElem?_set_ne h]

theorem getD_set_self {α : Type} {l : List α} {i : Nat} {a d : α} (h : i < l.length) :
    (l.set i a).getD i d = a := by
  simp [List.getElem?_set_self h]

theorem zip_set_map_ne {i j : Nat} (hij : i ≠ j) :
    ∀ (rows : List (List Val)) (nv : List Val),
    (List.zipWith (fun r v => r.set i v) rows nv).map (fun r => r.getD j Val.nan)
      = (rows.take nv.length).map (fun r => r.getD j Val.nan)
  | [], _ => by simp
  | _ :: _, [] => by simp
  | r :: rows, v :: nv => by
    simp only [List.zipWith_cons_cons, List.map_cons, List.length_cons, List.take_succ_cons]
    exact congrArg₂ _ (getD_set_ne hij) (zip_set_map_ne hij rows nv)

theorem zip_set_map_self {i : Nat} :
    ∀ (rows : List (List Val)) (nv : List Val), nv.length = rows.length →
    (∀ r ∈ rows, i < r.length) →
    (List.zipWith (fun r v => r.set i v) rows nv).map (fun r => r.getD i Val.nan) = nv
  | [], [], _, _ => by simp
  | r :: rows, v :: nv, hlen, hwf => by
    simp only [List.zipWith_cons_cons, List.map_cons]
    refine congrArg₂ _ (getD_set_self (hwf r (by simp))) ?_
    exact zip_set_map_self rows nv (by simpa using hlen) (fun x hx => hwf x (by simp [hx]))

theorem zip_app_map_lt {j : Nat} :
    ∀ (rows : List (List Val)) (nv : List Val), nv.length = rows.length →
    (∀ r ∈ rows, j < r.length) →
    (List.zipWith (fun r v => r ++ [v]) rows nv).map (fun r => r.getD j Val.nan)
      = rows.map (fun r => r.getD j Val.nan)
  | [], [], _, _ => by simp
  | r :: rows, v :: nv, hlen, hwf => by
    simp only [List.zipWith_cons_cons, List.map_cons]
    refine congrArg₂ _ (List.getD_append _ _ _ _ (hwf r (by simp))) ?_
    exact zip_app_map_lt rows nv (by simpa using hlen) (fun x hx => hwf x (by simp [hx]))

theorem zip_app_map_self {L : Nat} :
    ∀ (rows : List (List Val)) (nv : List Val), nv.length = rows.length →
    (∀ r ∈ rows, r.length = L) →
    (List.zipWith (fun r v => r ++ [v]) rows nv).map (fun r => r.getD L Val.nan) = nv
  | [], [], _, _ => by simp
  | r :: rows, v :: nv, hlen, hwf => by
    simp only [List.zipWith_cons_cons, List.map_cons]
    have h1 : (r ++ [v]).getD L Val.nan = v := by
      rw [List.getD_append_right _ _ _ _ (le_of_eq (hwf r (by simp)))]
      simp [hwf r (by simp)]
    refine congrArg₂ _ h1 ?_
    exact zip_app_map_self rows nv (by simpa using hlen) (fun x hx => hwf x (by simp [hx]))

theorem mem_zipWith_imp {α β γ : Type} {f : α → β → γ} :
    ∀ {as : List α} {bs : List β} {x : γ}, x ∈ List.zipWith f as bs →
    ∃ a b, a ∈ as ∧ b ∈ bs ∧ x = f a b
  | [], _, x, h => by simp at h
  | _ :: _, [], x, h => by simp at h
  | a :: as, b :: bs, x, h => by
    rcases List.mem_cons.mp (by simpa using h) with hx | hx
    · exact ⟨a, b, by simp, by simp, hx⟩
    · obtain ⟨a', b', ha, hb, rfl⟩ := mem_zipWith_imp hx
      exact ⟨a', b', by simp [ha], by simp [hb], rfl⟩

theorem zip_set_mem_len {i : Nat} {L : Nat} :
    ∀ {rows : List (List Val)} {nv : List Val}, (∀ r ∈ rows, r.length = L) →
    ∀ r' ∈ List.zipWith (fun r v => r.set i v) rows nv, r'.length = L := by
  intro rows nv hwf r' hr'
  obtain ⟨r, v, hr, -, rfl⟩ := mem_zipWith_imp hr'
  simpa using hwf r hr

theorem zip_app_mem_len {L : Nat} :
    ∀ {rows : List (List Val)} {nv : List Val}, (∀ r ∈ rows, r.length = L) →
    ∀ r' ∈ List.zipWith (fun r v => r ++ [v]) rows nv, r'.length = L + 1 := by
  intro rows nv hwf r' hr'
  obtain ⟨r, v, hr, -, rfl⟩ := mem_zipWith_imp hr'
  simpa using hwf r hr

theorem zip_len_eq {α β γ : Type} (f : α → β → γ) {as : List α} {bs : List β}
    (h : bs.length = as.length) : (List.zipWith f as bs).length = as.length := by
  simp [h]

/-! ### Lemmas about `idxOfCol` -/

theorem idxOfCol_eq_none_iff (cs : List String) (x : String) :
    idxOfCol cs x = none ↔ x ∉ cs := by
  induction cs with
  | nil => simp [idxOfCol]
  | cons c cs ih =>
    by_cases h : c = x
    · subst h; simp [idxOfCol]
    · simp [idxOfCol, h, Option.map_eq_none, ih, Ne.symm h]

theorem idxOfCol_isSome_of_mem {cs : List String} {x : String} (h : x ∈ cs) :
    ∃ i, idxOfCol cs x = some i := by
  cases he : idxOfCol cs x with
  | none => exact absurd ((idxOfCol_eq_none_iff cs x).mp he) (by simpa using h)
  | some i => exact ⟨i, rfl⟩

theorem idxOfCol_cons_eq {c x : String} (h : c = x) (cs : List String) :
    idxOfCol (c :: cs) x = some 0 := by
  simp [idxOfCol, h]

theorem idxOfCol_cons_ne {c x : String} (h : ¬c = x) (cs : List String) :
    idxOfCol (c :: cs) x = (idxOfCol cs x).map (· + 1) := by
  simp [idxOfCol, h]

theorem idxOfCol_lt {cs : List String} {x : String} {i : Nat}
    (h : idxOfCol cs x = some i) : i < cs.length := by
  induction cs generalizing i with
  | nil => simp [idxOfCol] at h
  | cons c cs ih =>
    by_cases hc : c = x
    · rw [idxOfCol_cons_eq hc] at h
      obtain rfl : (0 : Nat) = i := by simpa using h
      simp
    · rw [idxOfCol_cons_ne hc] at h
      rcases ho : idxOfCol cs x with _ | j <;> rw [ho] at h
      · simp at h
      · obtain rfl : j + 1 = i := by simpa using h
        have := ih ho
        simp only [List.length_cons]
        omega

theorem idxOfCol_getD {cs : List String} {x : String} {i : Nat}
    (h : idxOfCol cs x = some i) : cs.getD i "" = x := by
  induction cs generalizing i with
  | nil => simp [idxOfCol] at h
  | cons c cs ih =>
    by_cases hc : c = x
    · rw [idxOfCol_cons_eq hc] at h
      obtain rfl : (0 : Nat) = i := by simpa using h
      simpa using hc
    · rw [idxOfCol_cons_ne hc] at h
      rcases ho : idxOfCol cs x with _ | j <;> rw [ho] at h
      · simp at h
      · obtain rfl : j + 1 = i := by simpa using h
        simpa using ih ho

theorem idxOfCol_append_some {cs cs' : List String} {x : String} {i : Nat}
    (h : idxOfCol cs x = some i) : idxOfCol (cs ++ cs') x = some i := by
  induction cs generalizing i with
  | nil => simp [idxOfCol] at h
  | cons c cs ih =>
    by_cases hc : c = x
    · rw [idxOfCol_cons_eq hc] at h
      obtain rfl : (0 : Nat) = i := by simpa using h
      rw [List.cons_append, idxOfCol_cons_eq hc]
    · rw [idxOfCol_cons_ne hc] at h
      rcases ho : idxOfCol cs x with _ | j <;> rw [ho] at h
      · simp at h
      · obtain rfl : j + 1 = i := by simpa using h
        rw [List.cons_append, idxOfCol_cons_ne hc, ih ho]
        rfl

theorem idxOfCol_append_single {cs : List String} {x y : String}
    (h : idxOfCol cs x = none) :
    idxOfCol (cs ++ [y]) x = if y = x then some cs.length else none := by
  induction cs with
  | nil => simp [idxOfCol]
  | cons c cs ih =>
    by_cases hc : c = x
    · rw [idxOfCol_cons_eq hc] at h; simp at h
    · rw [idxOfCol_cons_ne hc] at h
      rcases ho : idxOfCol cs x with _ | j <;> rw [ho] at h
      · rw [List.cons_append, idxOfCol_cons_ne hc, ih ho]
        by_cases hy : y = x <;> simp [hy]
      · simp at h

/-! ### Lemmas about `colVals`, `setColIdx`, `setCol` -/

theorem length_colVals (df : DF) (i : Nat) : (colVals df i).length = df.rows.length := by
  simp [colVals]

theorem cols_setColIdx (df : DF) (i : Nat) (nv : List Val) :
    (setColIdx df i nv).cols = df.cols := rfl

theorem rows_length_setColIdx (df : DF) (i : Nat) (nv : List Val)
    (hlen : nv.length = df.rows.length) :
    (setColIdx df i nv).rows.length = df.rows.length := by
  simp [setColIdx, hlen]

theorem colVals_setColIdx_ne (df : DF) {i j : Nat} (nv : List Val)
    (hij : i ≠ j) (hlen : nv.length = df.rows.length) :
    colVals (setColIdx df i nv) j = colVals df j := by
  show (List.zipWith (fun r v => r.set i v) df.rows nv).map _ = _
  rw [zip_set_map_ne hij, hlen, List.take_length]
  rfl

theorem colVals_setColIdx_self (df : DF) {i : Nat} (nv : List Val)
    (hlen : nv.length = df.rows.length) (hwf : ∀ r ∈ df.rows, i < r.length) :
    colVals (setColIdx df i nv) i = nv :=
  zip_set_map_self df.rows nv hlen hwf

theorem wf_setColIdx {df : DF} {i : Nat} {nv : List Val} (hwf : df.WF) :
    (setColIdx df i nv).WF :=
  fun r hr => zip_set_mem_len hwf r hr

theorem colValsByName_eq (df : DF) {c : String} {i : Nat}
    (h : idxOfCol df.cols c = some i) : colValsByName df c = colVals df i := by
  simp [colValsByName, h]

theorem setCol_colValsByName_self (df : DF) (c : String) (nv : List Val)
    (hwf : df.WF) (hlen : nv.length = df.rows.length) :
    colValsByName (setCol df c nv) c = nv := by
  unfold setCol
  cases hidx : idxOfCol df.cols c with
  | some i =>
    have hi : i < df.cols.length := idxOfCol_lt hidx
    rw [colValsByName_eq _ (by rw [cols_setColIdx]; exact hidx)]
    exact colVals_setColIdx_self df nv hlen (fun r hr => (hwf r hr) ▸ hi)
  | none =>
    have hfind : idxOfCol (df.cols ++ [c]) c = some df.cols.length := by
      rw [idxOfCol_append_single hidx]; simp
    rw [colValsByName_eq ⟨df.cols ++ [c], _⟩ hfind]
    exact zip_app_map_self df.rows nv hlen hwf

theorem setCol_colValsByName_ne (df : DF) (c c' : String) (nv : List Val)
    (hne : c' ≠ c) (hwf : df.WF) (hlen : nv.length = df.rows.length) :
    colValsByName (setCol df c nv) c' = colValsByName df c' := by
  unfold setCol
  cases hidx : idxOfCol df.cols c with
  | some i =>
    cases hidx' : idxOfCol df.cols c' with
    | some j =>
      have hji : i ≠ j := by
        intro hji
        exact hne (by rw [← idxOfCol_getD hidx', ← hji, idxOfCol_getD hidx])
      rw [colValsByName_eq _ (by rw [cols_setColIdx]; exact hidx'), colValsByName_eq _ hidx']
      exact colVals_setColIdx_ne df nv hji hlen
    | none =>
      have : idxOfCol (setColIdx df i nv).cols c' = none := by
        rw [cols_setColIdx]; exact hidx'
      simp [colValsByName, this, hidx']
  | none =>
    cases hidx' : idxOfCol df.cols c' with
    | some j =>
      have hj : j < df.cols.length := idxOfCol_lt hidx'
      rw [colValsByName_eq ⟨df.cols ++ [c], _⟩ (idxOfCol_append_some hidx'),
        colValsByName_eq _ hidx']
      exact zip_app_map_lt df.rows nv hlen (fun r hr => (hwf r hr) ▸ hj)
    | none =>
      have : idxOfCol (df.cols ++ [c]) c' = none := by
        rw [idxOfCol_append_single hidx', if_neg (Ne.symm hne)]
      simp [colValsByName, this, hidx']

theorem setCol_mem_self (df : DF) (c : String) (nv : List Val) :
    c ∈ (setCol df c nv).cols := by
  unfold setCol
  cases hidx : idxOfCol df.cols c with
  | some i =>
    rw [cols_setColIdx]
    have := idxOfCol_getD hidx
    have hi := idxOfCol_lt hidx
    rw [← this, List.getD_eq_getElem _ _ hi]
    exact List.getElem_mem hi
  | none => simp

theorem setCol_mem_mono {df : DF} {x : String} (c : String) (nv : List Val)
    (h : x ∈ df.cols) : x ∈ (setCol df c nv).cols := by
  unfold setCol
  cases idxOfCol df.cols c with
  | some i => exact h
  | none => simp [h]

theorem setCol_WF {df : DF} {c : String} {nv : List Val} (hwf : df.WF) :
    (setCol df c nv).WF := by
  unfold setCol
  cases idxOfCol df.cols c with
  | some i => exact wf_setColIdx hwf
  | none =>
    intro r hr
    show r.length = (df.cols ++ [c]).length
    simp only [List.length_append, List.length_cons, List.length_nil]
    have := zip_app_mem_len (L := df.cols.length) hwf r hr
    omega

theorem setCol_rows_length {df : DF} {c : String} {nv : List Val}
    (hlen : nv.length = df.rows.length) :
    (setCol df c nv).rows.length = df.rows.length := by
  unfold setCol
  cases idxOfCol df.cols c with
  | some i => exact rows_length_setColIdx df i nv hlen
  | none => simp [hlen]

theorem cols_length_le_setCol (df : DF) (c : String) (nv : List Val) :
    df.cols.length ≤ (setCol df c nv).cols.length := by
  unfold setCol
  cases idxOfCol df.cols c with
  | some i => exact le_refl _
  | none => simp

theorem cols_getD_setCol (df : DF) (c : String) (nv : List Val) {i : Nat}
    (hi : i < df.cols.length) :
    (setCol df c nv).cols.getD i "" = df.cols.getD i "" := by
  unfold setCol
  cases idxOfCol df.cols c with
  | some j => rfl
  | none => exact List.getD_append _ _ _ _ hi

theorem colVals_setCol_ne_name (df : DF) (c : String) (nv : List Val) {i : Nat}
    (hi : i < df.cols.length) (hname : df.cols.getD i "" ≠ c)
    (hwf : df.WF) (hlen : nv.length = df.rows.length) :
    colVals (setCol df c nv) i = colVals df i := by
  unfold setCol
  cases hidx : idxOfCol df.cols c with
  | some j =>
    have hji : j ≠ i := by
      intro hji
      exact hname (by rw [← idxOfCol_getD hidx, hji])
    exact colVals_setColIdx_ne df nv hji hlen
  | none =>
    exact zip_app_map_lt df.rows nv hlen (fun r hr => (hwf r hr) ▸ hi)

/-! ### Lemmas about the missing-value loop -/

theorem fillWith_length (vs : List Val) (w : Val) : (fillWith vs w).length = vs.length := by
  simp [fillWith]

theorem fillWith_no_nan {vs : List Val} {w : Val} (hw : w.isNan = false) :
    (fillWith vs w).all (fun v => !v.isNan) = true := by
  rw [List.all_eq_true]
  intro v hv
  obtain ⟨u, -, rfl⟩ := List.mem_map.mp hv
  by_cases hu : u.isNan = true <;> simp [hu, hw]

theorem fillCol_shape {df : DF} {i : Nat} {s : String} {d : DF}
    (h : fillCol df i s = .ok d) :
    d = df ∨ ∃ w, d = setColIdx df i (fillWith (colVals df i) w) := by
  unfold fillCol at h
  split at h
  · split at h
    · right; exact ⟨_, (Except.ok.inj h).symm⟩
    · split at h
      · right; exact ⟨_, (Except.ok.inj h).symm⟩
      · split at h
        · split at h
          · right; exact ⟨_, (Except.ok.inj h).symm⟩
          · exact absurd h (by simp)
        · exact absurd h (by simp)
  · left; exact (Except.ok.inj h).symm

theorem fillCol_cols {df : DF} {i : Nat} {s : String} {d : DF}
    (h : fillCol df i s = .ok d) : d.cols = df.cols := by
  rcases fillCol_shape h with rfl | ⟨w, rfl⟩
  · rfl
  · rfl

theorem fillCol_colVals_ne {df : DF} {i : Nat} {s : String} {d : DF}
    (h : fillCol df i s = .ok d) {j : Nat} (hij : i ≠ j) :
    colVals d j = colVals df j := by
  rcases fillCol_shape h with rfl | ⟨w, rfl⟩
  · rfl
  · exact colVals_setColIdx_ne df _ hij (by rw [fillWith_length, length_colVals])

theorem fillCol_rows_length {df : DF} {i : Nat} {s : String} {d : DF}
    (h : fillCol df i s = .ok d) : d.rows.length = df.rows.length := by
  rcases fillCol_shape h with rfl | ⟨w, rfl⟩
  · rfl
  · exact rows_length_setColIdx df i _ (by rw [fillWith_length, length_colVals])

theorem fillCol_WF {df : DF} {i : Nat} {s : String} {d : DF}
    (hwf : df.WF) (h : fillCol df i s = .ok d) : d.WF := by
  rcases fillCol_shape h with rfl | ⟨w, rfl⟩
  · exact hwf
  · exact wf_setColIdx hwf

theorem fillCol_fills (df : DF) (i : Nat) (s : String)
    (hmiss : (colVals df i).any Val.isNan = true)
    (hs : s = "mean" ∨ s = "median" ∨ s = "mode")
    (hstat : (statValue s (colVals df i)).isNan = false) :
    fillCol df i s = .ok (setColIdx df i
      (fillWith (colVals df i) (statValue s (colVals df i)))) := by
  rcases hs with rfl | rfl | rfl
  · simp [fillCol, hmiss, statValue]
  · simp [fillCol, hmiss, statValue]
  · have hsv : statValue "mode" (colVals df i) = (modeFirst (colVals df i)).getD Val.nan := by
      simp [statValue]
    rcases hm : modeFirst (colVals df i) with _ | m
    · rw [hsv, hm] at hstat
      simp [Val.isNan] at hstat
    · rw [hsv, hm]
      simp [fillCol, hmiss, hm]

theorem fillCol_no_missing {df : DF} {i : Nat} {s : String}
    (hno : (colVals df i).any Val.isNan = false) : fillCol df i s = .ok df := by
  simp [fillCol, hno]

theorem fillCol_bad_strategy {df : DF} {i : Nat} {s : String}
    (hmiss : (colVals df i).any Val.isNan = true)
    (hs1 : s ≠ "mean") (hs2 : s ≠ "median") (hs3 : s ≠ "mode") :
    fillCol df i s = .error (.valueError ("Fill strategy " ++ s ++ " not recognized.")) := by
  rw [fillCol]
  simp only [hmiss, if_true, if_neg hs1, if_neg hs2, if_neg hs3]

theorem fillCols_cons (df : DF) (s : String) (i : Nat) (is : List Nat) :
    fillCols df s (i :: is) =
      match fillCol df i s with
      | .ok d => fillCols d s is
      | .error e => .error e := rfl

theorem fillCols_append (df : DF) (s : String) (L1 L2 : List Nat) :
    fillCols df s (L1 ++ L2) =
      match fillCols df s L1 with
      | .ok d => fillCols d s L2
      | .error e => .error e := by
  induction L1 generalizing df with
  | nil => rfl
  | cons i L1 ih =>
    show fillCols df s (i :: (L1 ++ L2)) = _
    rw [fillCols]
    cases hfc : fillCol df i s with
    | ok d => simpa [fillCols, hfc] using ih d
    | error e => simp [fillCols, hfc]

theorem fillCols_invar {s : String} :
    ∀ {L : List Nat} {df d : DF}, fillCols df s L = .ok d →
    d.cols = df.cols ∧ d.rows.length = df.rows.length ∧ (df.WF → d.WF)
  | [], df, d, h => by
    obtain rfl : df = d := Except.ok.inj h
    exact ⟨rfl, rfl, id⟩
  | i :: L, df, d, h => by
    rw [fillCols_cons] at h
    cases hfc : fillCol df i s with
    | ok d1 =>
      rw [hfc] at h
      obtain ⟨h1, h2, h3⟩ := fillCols_invar h
      exact ⟨h1.trans (fillCol_cols hfc), h2.trans (fillCol_rows_length hfc),
        fun hwf => h3 (fillCol_WF hwf hfc)⟩
    | error e => rw [hfc] at h; exact absurd h (by simp)

theorem fillCols_colVals {s : String} {j : Nat} :
    ∀ {L : List Nat} {df d : DF}, fillCols df s L = .ok d → j ∉ L →
    colVals d j = colVals df j
  | [], df, d, h, _ => by
    obtain rfl : df = d := Except.ok.inj h
    rfl
  | i :: L, df, d, h, hj => by
    rw [fillCols_cons] at h
    cases hfc : fillCol df i s with
    | ok d1 =>
      rw [hfc] at h
      have hji : j ∉ L := fun hm => hj (by simp [hm])
      rw [fillCols_colVals h hji, fillCol_colVals_ne hfc (fun hij => hj (by simp [hij]))]
    | error e => rw [hfc] at h; exact absurd h (by simp)

theorem fillCols_no_missing {s : String} :
    ∀ {L : List Nat} {df : DF}, (∀ i ∈ L, (colVals df i).any Val.isNan = false) →
    fillCols df s L = .ok df
  | [], _, _ => rfl
  | i :: L, df, hno => by
    rw [fillCols_cons, fillCol_no_missing (hno i (by simp))]
    exact fillCols_no_missing (fun j hj => hno j (by simp [hj]))

theorem fillCols_bad_strategy {s : String}
    (hs1 : s ≠ "mean") (hs2 : s ≠ "median") (hs3 : s ≠ "mode") :
    ∀ {L : List Nat} {df : DF}, (∃ i ∈ L, (colVals df i).any Val.isNan = true) →
    fillCols df s L =
      .error (.valueError ("Fill strategy " ++ s ++ " not recognized."))
  | [], _, hex => by simp at hex
  | j :: L, df, hex => by
    cases hj : (colVals df j).any Val.isNan with
    | true => rw [fillCols_cons, fillCol_bad_strategy hj hs1 hs2 hs3]
    | false =>
      rw [fillCols_cons, fillCol_no_missing hj]
      refine fillCols_bad_strategy hs1 hs2 hs3 ?_
      obtain ⟨i, hiL, hi⟩ := hex
      rcases List.mem_cons.mp hiL with rfl | hiL
      · exact absurd hi (by simp [hj])
      · exact ⟨i, hiL, hi⟩

/-- The decomposition of `List.range n` around an element `i < n`. -/
theorem range_split {i n : Nat} (hi : i < n) :
    ∃ L1 L2, List.range n = L1 ++ i :: L2 ∧ i ∉ L1 ∧ i ∉ L2 := by
  have hlen : i < (List.range n).length := by simpa using hi
  refine ⟨(List.range n).take i, (List.range n).drop (i + 1), ?_, ?_, ?_⟩
  · conv_lhs => rw [← List.take_append_drop i (List.range n)]
    rw [List.drop_eq_getElem_cons hlen, List.getElem_range]
  · rw [List.take_range]
    intro hmem
    exact absurd (List.mem_range.mp hmem) (by omega)
  · have hnd := List.nodup_range n
    conv at hnd => rw [← List.take_append_drop i (List.range n),
      List.drop_eq_getElem_cons hlen, List.getElem_range]
    have := List.nodup_append.mp hnd
    exact fun hmem => (List.nodup_cons.mp this.2.1).1 hmem

theorem fillLoop_colVals_at (df : DF) {mid : DF} {s : String} {i : Nat}
    (hwf : df.WF) (h : fillLoop df s = .ok mid) (hi : i < df.cols.length)
    (hmiss : (colVals df i).any Val.isNan = true)
    (hs : s = "mean" ∨ s = "median" ∨ s = "mode")
    (hstat : (statValue s (colVals df i)).isNan = false) :
    colVals mid i = fillWith (colVals df i) (statValue s (colVals df i)) := by
  obtain ⟨L1, L2, hsplit, hiL1, hiL2⟩ := range_split hi
  unfold fillLoop at h
  rw [hsplit, fillCols_append] at h
  cases h1 : fillCols df s L1 with
  | error e => rw [h1] at h; exact absurd h (by simp)
  | ok dmid =>
    rw [h1] at h
    obtain ⟨hcols1, -, hwf1⟩ := fillCols_invar h1
    have hcv1 : colVals dmid i = colVals df i := fillCols_colVals h1 hiL1
    replace h : fillCols dmid s (i :: L2) = .ok mid := h
    rw [fillCols_cons] at h
    have hfill := fillCol_fills dmid i s
      (by rw [hcv1]; exact hmiss) hs (by rw [hcv1]; exact hstat)
    rw [hfill] at h
    replace h : fillCols (setColIdx dmid i
      (fillWith (colVals dmid i) (statValue s (colVals dmid i)))) s L2 = .ok mid := h
    have hset : colVals (setColIdx dmid i
        (fillWith (colVals dmid i) (statValue s (colVals dmid i)))) i
        = fillWith (colVals dmid i) (statValue s (colVals dmid i)) := by
      refine colVals_setColIdx_self dmid _ (by rw [fillWith_length, length_colVals]) ?_
      intro r hr
      rw [hwf1 hwf r hr, hcols1]
      exact hi
    rw [fillCols_colVals h hiL2, hset, hcv1]

/-! ### Lemmas about `renameDF` and `addDerived` -/

theorem renameDF_rows (df : DF) : (renameDF df).rows = df.rows := rfl

theorem renameDF_colVals (df : DF) (i : Nat) : colVals (renameDF df) i = colVals df i := rfl

theorem renameDF_cols_length (df : DF) : (renameDF df).cols.length = df.cols.length := by
  simp [renameDF]

theorem renameDF_WF {df : DF} (hwf : df.WF) : (renameDF df).WF := by
  intro r hr
  rw [renameDF_cols_length]
  exact hwf r hr

theorem mem_renameDF {df : DF} {c : String} (h : c ∈ df.cols)
    (hne : c ≠ "median_house_value") : c ∈ (renameDF df).cols := by
  unfold renameDF
  exact List.mem_map.mpr ⟨c, h, by rw [if_neg hne]⟩

theorem addDerived2_err1 {df1 : DF}
    (h : idxOfCol df1.cols "total_bedrooms" = none) :
    addDerived2 df1 = .error (.keyError "total_bedrooms") := by
  unfold addDerived2; rw [h]

theorem addDerived2_err2 {df1 : DF} {ib : Nat}
    (hib : idxOfCol df1.cols "total_bedrooms" = some ib)
    (h : idxOfCol df1.cols "total_rooms" = none) :
    addDerived2 df1 = .error (.keyError "total_rooms") := by
  unfold addDerived2; rw [hib, h]

theorem addDerived2_eq {df1 : DF} {ib it2 : Nat}
    (hib : idxOfCol df1.cols "total_bedrooms" = some ib)
    (hit2 : idxOfCol df1.cols "total_rooms" = some it2) :
    addDerived2 df1 = .ok (setCol df1 "Bedrooms_Per_Room"
      (List.zipWith Val.div (colVals df1 ib) (colVals df1 it2))) := by
  unfold addDerived2; rw [hib, hit2]

theorem addDerived_err1 {df : DF}
    (h : idxOfCol df.cols "total_rooms" = none) :
    addDerived df = .error (.keyError "total_rooms") := by
  unfold addDerived; rw [h]

theorem addDerived_err2 {df : DF} {it : Nat}
    (hit : idxOfCol df.cols "total_rooms" = some it)
    (h : idxOfCol df.cols "households" = none) :
    addDerived df = .error (.keyError "households") := by
  unfold addDerived; rw [hit, h]

theorem addDerived_steps {df : DF} {it ih : Nat}
    (hit : idxOfCol df.cols "total_rooms" = some it)
    (hih : idxOfCol df.cols "households" = some ih) :
    addDerived df = addDerived2 (setCol df "Rooms_Per_Household"
      (List.zipWith Val.div (colVals df it) (colVals df ih))) := by
  unfold addDerived; rw [hit, hih]

theorem addDerived2_not_valueError (df1 : DF) (m : String) :
    addDerived2 df1 ≠ .error (.valueError m) := by
  cases hib : idxOfCol df1.cols "total_bedrooms" with
  | none => rw [addDerived2_err1 hib]; simp
  | some ib =>
    cases hit2 : idxOfCol df1.cols "total_rooms" with
    | none => rw [addDerived2_err2 hib hit2]; simp
    | some it2 => rw [addDerived2_eq hib hit2]; simp

theorem addDerived_not_valueError (df : DF) (m : String) :
    addDerived df ≠ .error (.valueError m) := by
  cases hit : idxOfCol df.cols "total_rooms" with
  | none => rw [addDerived_err1 hit]; simp
  | some it =>
    cases hih : idxOfCol df.cols "households" with
    | none => rw [addDerived_err2 hit hih]; simp
    | some ih => rw [addDerived_steps hit hih]; exact addDerived2_not_valueError _ m

theorem addDerived_ok_of_mem {df : DF}
    (h1 : "total_rooms" ∈ df.cols) (h2 : "households" ∈ df.cols)
    (h3 : "total_bedrooms" ∈ df.cols) :
    ∃ out, addDerived df = .ok out := by
  obtain ⟨it, hit⟩ := idxOfCol_isSome_of_mem h1
  obtain ⟨ih, hih⟩ := idxOfCol_isSome_of_mem h2
  obtain ⟨ib, hib⟩ := idxOfCol_isSome_of_mem (setCol_mem_mono "Rooms_Per_Household"
    (List.zipWith Val.div (colVals df it) (colVals df ih)) h3)
  obtain ⟨it2, hit2⟩ := idxOfCol_isSome_of_mem (setCol_mem_mono "Rooms_Per_Household"
    (List.zipWith Val.div (colVals df it) (colVals df ih)) h1)
  exact ⟨_, (addDerived_steps hit hih).trans (addDerived2_eq hib hit2)⟩

theorem addDerived2_colVals {df1 out : DF} {i : Nat} (h : addDerived2 df1 = .ok out)
    (hwf1 : df1.WF) (hi1 : i < df1.cols.length)
    (h2 : df1.cols.getD i "" ≠ "Bedrooms_Per_Room") :
    colVals out i = colVals df1 i := by
  cases hib : idxOfCol df1.cols "total_bedrooms" with
  | none => rw [addDerived2_err1 hib] at h; exact absurd h (by simp)
  | some ib =>
    cases hit2 : idxOfCol df1.cols "total_rooms" with
    | none => rw [addDerived2_err2 hib hit2] at h; exact absurd h (by simp)
    | some it2 =>
      rw [addDerived2_eq hib hit2] at h
      obtain rfl := (Except.ok.inj h).symm
      have hlen2 : (List.zipWith Val.div (colVals df1 ib) (colVals df1 it2)).length
          = df1.rows.length := by
        rw [zip_len_eq _ (by rw [length_colVals, length_colVals]), length_colVals]
      exact colVals_setCol_ne_name df1 _ _ hi1 h2 hwf1 hlen2

theorem addDerived_colVals {df out : DF} {i : Nat} (h : addDerived df = .ok out)
    (hwf : df.WF) (hi : i < df.cols.length)
    (h1 : df.cols.getD i "" ≠ "Rooms_Per_Household")
    (h2 : df.cols.getD i "" ≠ "Bedrooms_Per_Room") :
    colVals out i = colVals df i := by
  cases hit : idxOfCol df.cols "total_rooms" with
  | none => rw [addDerived_err1 hit] at h; exact absurd h (by simp)
  | some it =>
    cases hih : idxOfCol df.cols "households" with
    | none => rw [addDerived_err2 hit hih] at h; exact absurd h (by simp)
    | some ihh =>
      rw [addDerived_steps hit hih] at h
      have hlen1 : (List.zipWith Val.div (colVals df it) (colVals df ihh)).length
          = df.rows.length := by
        rw [zip_len_eq _ (by rw [length_colVals, length_colVals]), length_colVals]
      have hwf1 : (setCol df "Rooms_Per_Household"
          (List.zipWith Val.div (colVals df it) (colVals df ihh))).WF := setCol_WF hwf
      have hi1 : i < (setCol df "Rooms_Per_Household"
          (List.zipWith Val.div (colVals df it) (colVals df ihh))).cols.length :=
        lt_of_lt_of_le hi (cols_length_le_setCol df _ _)
      have hgd := cols_getD_setCol df "Rooms_Per_Household"
        (List.zipWith Val.div (colVals df it) (colVals df ihh)) hi
      rw [addDerived2_colVals h hwf1 hi1 (by rw [hgd]; exact h2)]
      exact colVals_setCol_ne_name df _ _ hi h1 hwf hlen1

/-! ### Lemmas about `handle_outliers` -/

theorem stepCol_cols (df : DF) (c : String) : (stepCol df c).cols = df.cols := by
  unfold stepCol
  cases idxOfCol df.cols c <;> rfl

theorem stepCol_rows_sublist (df : DF) (c : String) :
    List.Sublist (stepCol df c).rows df.rows := by
  unfold stepCol
  cases idxOfCol df.cols c with
  | some i => exact List.filter_sublist df.rows
  | none => exact List.Sublist.refl _

theorem seqFilter_cols (df : DF) (cs : List String) : (seqFilter df cs).cols = df.cols := by
  induction cs generalizing df with
  | nil => rfl
  | cons c cs ih => exact (ih (stepCol df c)).trans (stepCol_cols df c)

theorem seqFilter_rows_sublist (df : DF) (cs : List String) :
    List.Sublist (seqFilter df cs).rows df.rows := by
  induction cs generalizing df with
  | nil => exact List.Sublist.refl _
  | cons c cs ih => exact (ih (stepCol df c)).trans (stepCol_rows_sublist df c)

theorem handle_outliers_cons_mem {df : DF} {c : String} (h : c ∈ df.cols)
    (cs : List String) :
    handle_outliers df (c :: cs) = handle_outliers (stepCol df c) cs := by
  rw [handle_outliers, if_pos h]

theorem handle_outliers_cons_not_mem {df : DF} {c : String} (h : c ∉ df.cols)
    (cs : List String) :
    handle_outliers df (c :: cs) = .error (.keyError c) := by
  rw [handle_outliers, if_neg h]

theorem handle_outliers_ok_of_mem :
    ∀ {cs : List String} {df : DF}, (∀ c ∈ cs, c ∈ df.cols) →
    handle_outliers df cs = .ok (seqFilter df cs)
  | [], df, _ => rfl
  | c :: cs, df, h => by
    rw [handle_outliers_cons_mem (h c (by simp)) cs]
    exact handle_outliers_ok_of_mem fun x hx => by
      rw [stepCol_cols]; exact h x (by simp [hx])

theorem handle_outliers_mem_of_ok :
    ∀ {cs : List String} {df d : DF}, handle_outliers df cs = .ok d →
    ∀ c ∈ cs, c ∈ df.cols
  | [], _, _, _ => by simp
  | c :: cs, df, d, h => by
    by_cases hc : c ∈ df.cols
    · rw [handle_outliers_cons_mem hc cs] at h
      intro x hx
      rcases List.mem_cons.mp hx with rfl | hx
      · exact hc
      · have := handle_outliers_mem_of_ok h x hx
        rwa [stepCol_cols] at this
    · rw [handle_outliers_cons_not_mem hc cs] at h
      exact absurd h (by simp)

theorem handle_outliers_ok_cols {cs : List String} {df d : DF}
    (h : handle_outliers df cs = .ok d) : d.cols = df.cols := by
  rw [handle_outliers_ok_of_mem (handle_outliers_mem_of_ok h)] at h
  rw [← Except.ok.inj h]
  exact seqFilter_cols df cs

/-! ### The evaluator (`evaluate_model` in `src/models.py`) -/

/-- Round half to even (Python's built-in `round`), on exact rationals. -/
def roundHalfEvenQ (x : ℚ) : ℤ :=
  if x - ⌊x⌋ < 1/2 then ⌊x⌋
  else if 1/2 < x - ⌊x⌋ then ⌊x⌋ + 1
  else if ⌊x⌋ % 2 = 0 then ⌊x⌋ else ⌊x⌋ + 1

/-- `round(x, 4)`: round to 4 decimal places. -/
def roundQ4 (x : ℚ) : ℚ := (roundHalfEvenQ (x * 10000) : ℚ) / 10000

/-- Sum of pairwise squared differences (the shared residual term of the
two metrics). -/
def sqErrSum (y_true y_pred : List ℚ) : ℚ :=
  (List.zipWith (fun a b => (a - b) * (a - b)) y_true y_pred).sum

/-- Total sum of squares of the target around its mean. -/
def totSqSum (y_true : List ℚ) : ℚ :=
  (y_true.map (fun a =>
    (a - y_true.sum / (y_true.length : ℚ)) * (a - y_true.sum / (y_true.length : ℚ)))).sum

/-- The input validation both sklearn metrics run (`_check_reg_targets`):
`check_consistent_length` raises `ValueError` on mismatched lengths, then
`check_array` (with `ensure_min_samples=1`) raises `ValueError` on zero
samples. -/
def checkRegTargets (y_true y_pred : List ℚ) : Except PErr Unit :=
  if y_true.length ≠ y_pred.length then
    .error (.valueError "Found input variables with inconsistent numbers of samples.")
  else if y_true.isEmpty then
    .error (.valueError "Found array with 0 samples.")
  else .ok ()

/-- The score `sklearn.metrics.r2_score` computes once validation passed:
NaN (with `UndefinedMetricWarning`) for fewer than two samples; otherwise
one minus the ratio of residual to total squared error, with the
degenerate constant-target case mapped to 1 when the residual is zero and
to 0 otherwise. -/
def r2Val (y_true y_pred : List ℚ) : Val :=
  if y_true.length < 2 then Val.nan
  else if totSqSum y_true = 0 then
    (if sqErrSum y_true y_pred = 0 then Val.num 1 else Val.num 0)
  else Val.num (1 - sqErrSum y_true y_pred / totSqSum y_true)

/-- The score `sklearn.metrics.mean_squared_error` computes once
validation passed. -/
def mseVal (y_true y_pred : List ℚ) : Val :=
  Val.num (sqErrSum y_true y_pred / (y_true.length : ℚ))

/-- `sklearn.metrics.r2_score`: validate, then score (NaN below two
samples). -/
def r2_score (y_true y_pred : List ℚ) : Except PErr Val :=
  match checkRegTargets y_true y_pred with
  | .error e => .error e
  | .ok _ => .ok (r2Val y_true y_pred)

/-- `sklearn.metrics.mean_squared_error`: validate, then score. -/
def mean_squared_error (y_true y_pred : List ℚ) : Except PErr Val :=
  match checkRegTargets y_true y_pred with
  | .error e => .error e
  | .ok _ => .ok (mseVal y_true y_pred)

/-- Python's `round(x, 4)` lifted to float values: NaN rounds to NaN. -/
def roundV4 : Val → Val
  | Val.num q => Val.num (roundQ4 q)
  | v => v

/-- `evaluate_model` from `src/models.py`, with the model's predictions on
the test features supplied as a list: calls `r2_score`, then
`mean_squared_error` (either may raise `ValueError`), and builds the
metrics record `[R2, MSE]`, each score rounded to 4 decimal places. -/
def evaluate_model (y_test y_pred : List ℚ) : Except PErr (List (String × Val)) :=
  match r2_score y_test y_pred with
  | .error e => .error e
  | .ok r2 =>
    match mean_squared_error y_test y_pred with
    | .error e => .error e
    | .ok mse => .ok [("R2", roundV4 r2), ("MSE", roundV4 mse)]

/-! ### The category-count plot validation (`plot_categorical_counts`) -/

/-- Whether the first character list is a prefix of the second. -/
def chStarts : List Char → List Char → Bool
  | [], _ => true
  | _ :: _, [] => false
  | a :: as, b :: bs => a == b && chStarts as bs

/-- Whether the first character list occurs inside the second. -/
def chSub : List Char → List Char → Bool
  | ns, [] => ns.isEmpty
  | ns, b :: bs => chStarts ns (b :: bs) || chSub ns bs

/-- Python's substring test `needle in hay` on strings. -/
def strIn (needle hay : String) : Bool := chSub needle.toList hay.toList

/-- The column validation of `plot_categorical_counts` in
`src/visualization.py`: accept when the requested name is a column, or when
some column name contains it as a substring (one-hot-encoded splits);
otherwise raise a `KeyError` naming the request. -/
def plot_categorical_counts_check (cols : List String) (column : String) :
    Except PErr Unit :=
  if column ∈ cols then .ok ()
  else if (cols.filter (fun c => strIn column c)).isEmpty then
    .error (.keyError column)
  else .ok ()

/-! ### Heap model for the mutation claim -/

/-- The default object for out-of-range heap reads. -/
def emptyDF : DF := ⟨[], []⟩

/-- Read a heap reference. -/
def hGet (h : List DF) (r : Nat) : DF := h.getD r emptyDF

/-- The missing-value loop acting on the heap object `w` (each
`df[col] = ...` assignment mutates the DataFrame object in place). -/
def fillColsH (w : Nat) (s : String) : List DF → List Nat → List DF × Except PErr Unit
  | h, [] => (h, .ok ())
  | h, i :: is =>
    match fillCol (hGet h w) i s with
    | .ok d => fillColsH w s (h.set w d) is
    | .error e => (h, .error e)

/-- The second derived-feature assignment on the heap. -/
def addDerivedH2 (h : List DF) (w : Nat) : List DF × Except PErr Unit :=
  match idxOfCol (hGet h w).cols "total_bedrooms" with
  | none => (h, .error (.keyError "total_bedrooms"))
  | some ib =>
    match idxOfCol (hGet h w).cols "total_rooms" with
    | none => (h, .error (.keyError "total_rooms"))
    | some it2 =>
      (h.set w (setCol (hGet h w) "Bedrooms_Per_Room"
        (List.zipWith Val.div (colVals (hGet h w) ib) (colVals (hGet h w) it2))), .ok ())

/-- The derived-feature block acting on the heap object `w` (two in-place
column assignments). -/
def addDerivedH (h : List DF) (w : Nat) : List DF × Except PErr Unit :=
  match idxOfCol (hGet h w).cols "total_rooms" with
  | none => (h, .error (.keyError "total_rooms"))
  | some it =>
    match idxOfCol (hGet h w).cols "households" with
    | none => (h, .error (.keyError "households"))
    | some ih =>
      addDerivedH2 (h.set w (setCol (hGet h w) "Rooms_Per_Household"
        (List.zipWith Val.div (colVals (hGet h w) it) (colVals (hGet h w) ih)))) w

/-- The body of the heap `preprocess_data` after the working object `w2`
has been chosen: run the missing-value loop and the derived-feature block,
mutating only `w2`. -/
def preprocessCore (h2 : List DF) (w2 : Nat) (s : String) :
    List DF × Except PErr Nat :=
  match fillColsH w2 s h2 (List.range (hGet h2 w2).cols.length) with
  | (h3, .error e) => (h3, .error e)
  | (h3, .ok _) =>
    match addDerivedH h3 w2 with
    | (h4, .error e) => (h4, .error e)
    | (h4, .ok _) => (h4, .ok w2)

/-- `preprocess_data` as a heap program: the caller passes a reference `r`;
the body first copies (`df = df.copy()`) into a fresh object, possibly
rebinds to a fresh renamed object (`df = df.rename(...)`), then mutates
only the working object.  Returns the final heap and the result. -/
def preprocessProg (h : List DF) (r : Nat) (s : String) :
    List DF × Except PErr Nat :=
  if "median_house_value" ∈ (hGet (h ++ [hGet h r]) h.length).cols then
    preprocessCore ((h ++ [hGet h r]) ++
      [renameDF (hGet (h ++ [hGet h r]) h.length)]) (h ++ [hGet h r]).length s
  else
    preprocessCore (h ++ [hGet h r]) h.length s

/-- The `handle_outliers` loop as a heap program: each `df = df[mask]`
rebinds the local name to a fresh filtered object; nothing is written in
place. -/
def hoAuxH : Nat → List DF → List String → List DF × Except PErr Nat
  | w, h, [] => (h, .ok w)
  | w, h, c :: cs =>
    if c ∈ (hGet h w).cols then
      hoAuxH h.length (h ++ [stepCol (hGet h w) c]) cs
    else (h, .error (.keyError c))

/-- `handle_outliers` as a heap program: copy the argument, then run the
filtering loop on fresh objects. -/
def handleOutliersProg (h : List DF) (r : Nat) (cs : List String) :
    List DF × Except PErr Nat :=
  hoAuxH h.length (h ++ [hGet h r]) cs

/-! ### Frame lemmas for the heap model -/

theorem hGet_set_ne {h : List DF} {w r : Nat} {d : DF} (hne : r ≠ w) :
    hGet (h.set w d) r = hGet h r :=
  getD_set_ne (Ne.symm hne)

theorem hGet_append {h t : List DF} {r : Nat} (hr : r < h.length) :
    hGet (h ++ t) r = hGet h r :=
  List.getD_append _ _ _ _ hr

theorem fillColsH_cons (w : Nat) (s : String) (h : List DF) (i : Nat) (is : List Nat) :
    fillColsH w s h (i :: is) =
      match fillCol (hGet h w) i s with
      | .ok d => fillColsH w s (h.set w d) is
      | .error e => (h, .error e) := rfl

theorem fillColsH_fst {w : Nat} {s : String} {r : Nat} (hne : r ≠ w) :
    ∀ {L : List Nat} {h : List DF}, hGet ((fillColsH w s h L).1) r = hGet h r
  | [], h => rfl
  | i :: L, h => by
    rw [fillColsH_cons]
    cases fillCol (hGet h w) i s with
    | ok d => exact (fillColsH_fst hne).trans (hGet_set_ne hne)
    | error e => rfl

theorem addDerivedH2_fst {h : List DF} {w r : Nat} (hne : r ≠ w) :
    hGet ((addDerivedH2 h w).1) r = hGet h r := by
  unfold addDerivedH2
  cases idxOfCol (hGet h w).cols "total_bedrooms" with
  | none => rfl
  | some ib =>
    cases idxOfCol (hGet h w).cols "total_rooms" with
    | none => rfl
    | some it2 => exact hGet_set_ne hne

theorem addDerivedH_fst {h : List DF} {w r : Nat} (hne : r ≠ w) :
    hGet ((addDerivedH h w).1) r = hGet h r := by
  unfold addDerivedH
  cases idxOfCol (hGet h w).cols "total_rooms" with
  | none => rfl
  | some it =>
    cases idxOfCol (hGet h w).cols "households" with
    | none => rfl
    | some ih => exact (addDerivedH2_fst hne).trans (hGet_set_ne hne)

theorem preprocessCore_fst {h2 : List DF} {w2 r : Nat} {s : String} (hne : r ≠ w2) :
    hGet ((preprocessCore h2 w2 s).1) r = hGet h2 r := by
  unfold preprocessCore
  rcases hfc : fillColsH w2 s h2 (List.range (hGet h2 w2).cols.length) with ⟨h3, res⟩
  have h3eq : hGet h3 r = hGet h2 r := by
    have := fillColsH_fst (w := w2) (s := s) hne
      (L := List.range (hGet h2 w2).cols.length) (h := h2)
    rwa [hfc] at this
  cases res with
  | error e => exact h3eq
  | ok u =>
    show hGet ((match addDerivedH h3 w2 with
      | (h4, Except.error e) => (h4, Except.error e)
      | (h4, Except.ok _) => (h4, Except.ok w2)).1) r = hGet h2 r
    rcases had : addDerivedH h3 w2 with ⟨h4, res2⟩
    have h4eq : hGet h4 r = hGet h3 r := by
      have := addDerivedH_fst (h := h3) (w := w2) hne
      rwa [had] at this
    cases res2 with
    | error e => exact h4eq.trans h3eq
    | ok u2 => exact h4eq.trans h3eq

theorem hoAuxH_cons (w : Nat) (h : List DF) (c : String) (cs : List String) :
    hoAuxH w h (c :: cs) =
      if c ∈ (hGet h w).cols then hoAuxH h.length (h ++ [stepCol (hGet h w) c]) cs
      else (h, .error (.keyError c)) := rfl

theorem hoAuxH_fst {r : Nat} :
    ∀ {cs : List String} {w : Nat} {h : List DF}, r < h.length →
    hGet ((hoAuxH w h cs).1) r = hGet h r
  | [], _, _, _ => rfl
  | c :: cs, w, h, hr => by
    rw [hoAuxH_cons]
    by_cases hc : c ∈ (hGet h w).cols
    · rw [if_pos hc]
      have hr2 : r < (h ++ [stepCol (hGet h w) c]).length := by
        rw [List.length_append]
        omega
      exact (hoAuxH_fst hr2).trans (hGet_append hr)
    · rw [if_neg hc]

instance {ε α : Type} [DecidableEq ε] [DecidableEq α] : DecidableEq (Except ε α) :=
  fun x y =>
    match x, y with
    | .ok a, .ok b =>
      if h : a = b then isTrue (by rw [h]) else isFalse (by simp [h])
    | .error e, .error f =>
      if h : e = f then isTrue (by rw [h]) else isFalse (by simp [h])
    | .ok _, .error _ => isFalse (by simp)
    | .error _, .ok _ => isFalse (by simp)

/-- Whether row `r` lies inside the named column's IQR fence as computed
from the given frame (false when the column is absent). -/
def rowInFence (df : DF) (c : String) (r : List Val) : Bool :=
  match idxOfCol df.cols c with
  | some i => inFenceB df i r
  | none => false

/-! ### Claim theorems -/

/-- C1, counterexample: `preprocess_data` does not fail for every dataset
when the fill strategy is unrecognized — on a dataset with no missing
values the strategy check is never reached and the call succeeds. -/
theorem preprocess_bad_strategy_accepted :
    preprocess_data ⟨["total_rooms", "households", "total_bedrooms"],
      [[Val.num 10, Val.num 2, Val.num 3]]⟩ "bogus"
      = .ok ⟨["total_rooms", "households", "total_bedrooms",
              "Rooms_Per_Household", "Bedrooms_Per_Room"],
        [[Val.num 10, Val.num 2, Val.num 3, Val.num 5, Val.num (3/10)]]⟩ := by
  with_unfolding_all decide

/-- C1, amended: for every dataset in which some numeric column contains a
missing value, a fill strategy other than mean/median/mode makes
`preprocess_data` fail with the invalid-argument error naming the
strategy. -/
theorem preprocess_bad_strategy_raises (df : DF) (s : String)
    (hs1 : s ≠ "mean") (hs2 : s ≠ "median") (hs3 : s ≠ "mode")
    (hex : ∃ i, i < df.cols.length ∧ (colVals df i).any Val.isNan = true) :
    preprocess_data df s
      = .error (.valueError ("Fill strategy " ++ s ++ " not recognized.")) := by
  obtain ⟨i, hi, hnan⟩ := hex
  have hfl : fillLoop (renameDF df) s
      = .error (.valueError ("Fill strategy " ++ s ++ " not recognized.")) := by
    unfold fillLoop
    refine fillCols_bad_strategy hs1 hs2 hs3 ⟨i, ?_, ?_⟩
    · rw [renameDF_cols_length]
      exact List.mem_range.mpr hi
    · rw [renameDF_colVals]
      exact hnan
  unfold preprocess_data
  rw [hfl]

/-- C1, witness for the amended theorem. -/
theorem preprocess_bad_strategy_raises_app :
    preprocess_data ⟨["total_rooms"], [[Val.nan]]⟩ "zzz"
      = .error (.valueError ("Fill strategy " ++ "zzz" ++ " not recognized.")) :=
  preprocess_bad_strategy_raises _ "zzz" (by decide) (by decide) (by decide)
    ⟨0, by decide, by decide⟩

/-- The dataset refuting idempotence of the outlier filter. -/
def dfC2 : DF :=
  ⟨["a"], [[Val.num 0], [Val.num 0], [Val.num 0], [Val.num 1], [Val.num 1],
    [Val.num 1], [Val.num 5], [Val.num 100]]⟩

/-- Its image under one application of `handle_outliers` on column `a`. -/
def dfC2a : DF :=
  ⟨["a"], [[Val.num 0], [Val.num 0], [Val.num 0], [Val.num 1], [Val.num 1],
    [Val.num 1], [Val.num 5]]⟩

/-- C2, counterexample: `handle_outliers` is not idempotent — re-filtering
its own output on the same column drops a further row, because the fence is
recomputed from the reduced data. -/
theorem handle_outliers_not_idempotent :
    handle_outliers dfC2 ["a"] = .ok dfC2a ∧
    handle_outliers dfC2a ["a"] ≠ .ok dfC2a :=
  ⟨by with_unfolding_all decide, by with_unfolding_all decide⟩

/-- C2, amended: re-filtering the output of `handle_outliers` with the same
column list always succeeds and returns a dataset with the same columns
whose rows form a (possibly strict) sublist of that output's rows. -/
theorem handle_outliers_refilter_sublist {df d1 : DF} {cols : List String}
    (h : handle_outliers df cols = .ok d1) :
    ∃ d2, handle_outliers d1 cols = .ok d2 ∧ d2.cols = d1.cols ∧
      List.Sublist d2.rows d1.rows := by
  have hmem : ∀ c ∈ cols, c ∈ d1.cols := by
    intro c hc
    rw [handle_outliers_ok_cols h]
    exact handle_outliers_mem_of_ok h c hc
  exact ⟨seqFilter d1 cols, handle_outliers_ok_of_mem hmem,
    seqFilter_cols d1 cols, seqFilter_rows_sublist d1 cols⟩

/-- C2, witness for the amended theorem. -/
theorem handle_outliers_refilter_sublist_app :
    ∃ d2, handle_outliers dfC2a ["a"] = .ok d2 ∧ d2.cols = dfC2a.cols ∧
      List.Sublist d2.rows dfC2a.rows :=
  handle_outliers_refilter_sublist
    (show handle_outliers dfC2 ["a"] = Except.ok dfC2a by with_unfolding_all decide)

/-- C3: when every requested column is present, `handle_outliers` returns
exactly the sequential filter (rows outside a fence are dropped, fences
computed from the carried-forward data, columns processed in the given
order), and every row of the result lies inside each requested column's
fence as computed at that column's step. -/
theorem handle_outliers_fence_spec (df : DF) (cols : List String)
    (hmem : ∀ c ∈ cols, c ∈ df.cols) :
    handle_outliers df cols = .ok (seqFilter df cols) ∧
    ∀ k (hk : k < cols.length), ∀ r ∈ (seqFilter df cols).rows,
      rowInFence (seqFilter df (cols.take k)) (cols.get ⟨k, hk⟩) r = true := by
  refine ⟨handle_outliers_ok_of_mem hmem, ?_⟩
  intro k hk r hr
  have hdecomp : cols = cols.take k ++ cols.get ⟨k, hk⟩ :: cols.drop (k + 1) := by
    conv_lhs => rw [← List.take_append_drop k cols]
    rw [List.drop_eq_getElem_cons (by simpa using hk)]
    rfl
  have hseq : seqFilter df cols
      = seqFilter (stepCol (seqFilter df (cols.take k)) (cols.get ⟨k, hk⟩))
          (cols.drop (k + 1)) := by
    conv_lhs => rw [hdecomp]
    unfold seqFilter
    rw [List.foldl_append]
    rfl
  have hr2 : r ∈ (stepCol (seqFilter df (cols.take k)) (cols.get ⟨k, hk⟩)).rows := by
    refine (seqFilter_rows_sublist _ (cols.drop (k + 1))).mem ?_
    rw [← hseq]
    exact hr
  have hcmem : cols.get ⟨k, hk⟩ ∈ (seqFilter df (cols.take k)).cols := by
    rw [seqFilter_cols]
    exact hmem _ (List.get_mem cols k hk)
  obtain ⟨i, hidx⟩ := idxOfCol_isSome_of_mem hcmem
  rw [rowInFence, hidx]
  unfold stepCol at hr2
  rw [hidx] at hr2
  exact (List.mem_filter.mp hr2).2

/-- C3, witness data. -/
def dfC3 : DF := ⟨["a"], [[Val.num 1], [Val.num 2], [Val.num 3]]⟩

/-- C3, witness. -/
theorem handle_outliers_fence_spec_app :
    handle_outliers dfC3 ["a"] = .ok (seqFilter dfC3 ["a"]) ∧
    ∀ k (hk : k < (["a"] : List String).length),
      ∀ r ∈ (seqFilter dfC3 ["a"]).rows,
      rowInFence (seqFilter dfC3 ((["a"] : List String).take k))
        ((["a"] : List String).get ⟨k, hk⟩) r = true :=
  handle_outliers_fence_spec dfC3 ["a"] (by decide)

/-- C4, counterexample data: an all-NaN numeric column (its mean is NaN,
so `fillna` leaves it missing). -/
def dfC4a : DF :=
  ⟨["total_rooms", "households", "total_bedrooms"], [[Val.nan, Val.num 1, Val.num 1]]⟩

/-- C4, counterexample data: a column named like the derived feature
`Rooms_Per_Household`; it is imputed and then overwritten by the ratio. -/
def dfC4b : DF :=
  ⟨["total_rooms", "households", "total_bedrooms", "Rooms_Per_Household"],
    [[Val.num 0, Val.num 0, Val.num 1, Val.nan], [Val.num 2, Val.num 1, Val.num 1, Val.num 7]]⟩

/-- C4, counterexample: with the valid strategy `mean`, a numeric column
that contained missing values can still contain missing values after
`preprocess_data` — when the column is all-NaN (the mean is NaN), and when
the column is named like a derived feature (the filled values are
overwritten by a ratio that can itself be NaN). -/
theorem preprocess_fill_missing_remains :
    (preprocess_data dfC4a "mean"
        = .ok ⟨["total_rooms", "households", "total_bedrooms",
                "Rooms_Per_Household", "Bedrooms_Per_Room"],
          [[Val.nan, Val.num 1, Val.num 1, Val.nan, Val.nan]]⟩ ∧
      (colVals dfC4a 0).any Val.isNan = true ∧
      (colVals ⟨["total_rooms", "households", "total_bedrooms",
                "Rooms_Per_Household", "Bedrooms_Per_Room"],
          [[Val.nan, Val.num 1, Val.num 1, Val.nan, Val.nan]]⟩ 0).any Val.isNan = true) ∧
    (preprocess_data dfC4b "mean"
        = .ok ⟨["total_rooms", "households", "total_bedrooms",
                "Rooms_Per_Household", "Bedrooms_Per_Room"],
          [[Val.num 0, Val.num 0, Val.num 1, Val.nan, Val.pinf],
           [Val.num 2, Val.num 1, Val.num 1, Val.num 2, Val.num (1/2)]]⟩ ∧
      (colVals dfC4b 3).any Val.isNan = true ∧
      (colVals ⟨["total_rooms", "households", "total_bedrooms",
                "Rooms_Per_Household", "Bedrooms_Per_Room"],
          [[Val.num 0, Val.num 0, Val.num 1, Val.nan, Val.pinf],
           [Val.num 2, Val.num 1, Val.num 1, Val.num 2, Val.num (1/2)]]⟩ 3).any Val.isNan
        = true) := by
  with_unfolding_all decide

/-- C4, amended: for a well-formed dataset and a valid strategy, every
numeric column that contains a missing value, whose fill statistic is
itself well defined (not NaN), and which is not named like one of the two
derived features, ends up with its missing entries replaced by the
column's mean / median / first mode respectively, its other entries
unchanged, and no missing values remain in it. -/
theorem preprocess_fill_correct (df : DF) (s : String) (out : DF) (i : Nat)
    (hwf : df.WF) (hok : preprocess_data df s = .ok out)
    (hs : s = "mean" ∨ s = "median" ∨ s = "mode")
    (hi : i < df.cols.length)
    (hn1 : (renameDF df).cols.getD i "" ≠ "Rooms_Per_Household")
    (hn2 : (renameDF df).cols.getD i "" ≠ "Bedrooms_Per_Room")
    (hmiss : (colVals df i).any Val.isNan = true)
    (hstat : (statValue s (colVals df i)).isNan = false) :
    colVals out i = fillWith (colVals df i) (statValue s (colVals df i)) ∧
    (colVals out i).all (fun v => !v.isNan) = true := by
  unfold preprocess_data at hok
  cases hfl : fillLoop (renameDF df) s with
  | error e => rw [hfl] at hok; exact absurd hok (by simp)
  | ok mid =>
    rw [hfl] at hok
    replace hok : addDerived mid = .ok out := hok
    have hwfR : (renameDF df).WF := renameDF_WF hwf
    have hiR : i < (renameDF df).cols.length := by
      rw [renameDF_cols_length]; exact hi
    have hmid0 := fillLoop_colVals_at (renameDF df) hwfR hfl hiR hmiss hs hstat
    have hmid : colVals mid i = fillWith (colVals df i) (statValue s (colVals df i)) := hmid0
    have hfl2 : fillCols (renameDF df) s (List.range (renameDF df).cols.length)
        = .ok mid := hfl
    obtain ⟨hcols, -, hwfm⟩ := fillCols_invar hfl2
    have hout : colVals out i = colVals mid i := by
      refine addDerived_colVals hok (hwfm hwfR) ?_ ?_ ?_
      · rw [hcols]; exact hiR
      · rw [hcols]; exact hn1
      · rw [hcols]; exact hn2
    refine ⟨hout.trans hmid, ?_⟩
    rw [hout, hmid]
    exact fillWith_no_nan hstat

/-- C4, witness data. -/
def dfC4w : DF :=
  ⟨["total_rooms", "households", "total_bedrooms"],
    [[Val.nan, Val.num 1, Val.num 1], [Val.num 2, Val.num 1, Val.num 1]]⟩

/-- C4, the preprocessed witness data. -/
def dfC4wOut : DF :=
  ⟨["total_rooms", "households", "total_bedrooms",
    "Rooms_Per_Household", "Bedrooms_Per_Room"],
    [[Val.num 2, Val.num 1, Val.num 1, Val.num 2, Val.num (1/2)],
     [Val.num 2, Val.num 1, Val.num 1, Val.num 2, Val.num (1/2)]]⟩

/-- C4, witness for the amended theorem. -/
theorem preprocess_fill_correct_app :
    colVals dfC4wOut 0 = fillWith (colVals dfC4w 0) (statValue "mean" (colVals dfC4w 0)) ∧
    (colVals dfC4wOut 0).all (fun v => !v.isNan) = true :=
  preprocess_fill_correct dfC4w "mean" dfC4wOut 0
    (by with_unfolding_all decide) (by with_unfolding_all decide) (Or.inl rfl)
    (by with_unfolding_all decide) (by with_unfolding_all decide)
    (by with_unfolding_all decide) (by with_unfolding_all decide)
    (by with_unfolding_all decide)

/-- C5: after a successful `preprocess_data` on a well-formed dataset, the
columns `Rooms_Per_Household` and `Bedrooms_Per_Room` are present and
equal, element-wise, the unguarded IEEE quotients of the returned
dataset's `total_rooms`, `households` and `total_bedrooms` columns
(never read from same-named input columns — those are overwritten). -/
theorem preprocess_derived_cols (df : DF) (s : String) (out : DF)
    (hwf : df.WF) (hok : preprocess_data df s = .ok out) :
    "Rooms_Per_Household" ∈ out.cols ∧ "Bedrooms_Per_Room" ∈ out.cols ∧
    colValsByName out "Rooms_Per_Household"
      = List.zipWith Val.div (colValsByName out "total_rooms")
          (colValsByName out "households") ∧
    colValsByName out "Bedrooms_Per_Room"
      = List.zipWith Val.div (colValsByName out "total_bedrooms")
          (colValsByName out "total_rooms") := by
  unfold preprocess_data at hok
  cases hfl : fillLoop (renameDF df) s with
  | error e => rw [hfl] at hok; exact absurd hok (by simp)
  | ok mid =>
    rw [hfl] at hok
    replace hok : addDerived mid = .ok out := hok
    have hfl2 : fillCols (renameDF df) s (List.range (renameDF df).cols.length)
        = .ok mid := hfl
    have hwfm : mid.WF := (fillCols_invar hfl2).2.2 (renameDF_WF hwf)
    cases hit : idxOfCol mid.cols "total_rooms" with
    | none => rw [addDerived_err1 hit] at hok; exact absurd hok (by simp)
    | some it =>
      cases hih : idxOfCol mid.cols "households" with
      | none => rw [addDerived_err2 hit hih] at hok; exact absurd hok (by simp)
      | some ihh =>
        rw [addDerived_steps hit hih] at hok
        cases hib : idxOfCol (setCol mid "Rooms_Per_Household"
            (List.zipWith Val.div (colVals mid it) (colVals mid ihh))).cols
            "total_bedrooms" with
        | none => rw [addDerived2_err1 hib] at hok; exact absurd hok (by simp)
        | some ib =>
          cases hit2 : idxOfCol (setCol mid "Rooms_Per_Household"
              (List.zipWith Val.div (colVals mid it) (colVals mid ihh))).cols
              "total_rooms" with
          | none => rw [addDerived2_err2 hib hit2] at hok; exact absurd hok (by simp)
          | some it2 =>
            rw [addDerived2_eq hib hit2] at hok
            obtain rfl := (Except.ok.inj hok).symm
            have hlen1 : (List.zipWith Val.div (colVals mid it) (colVals mid ihh)).length
                = mid.rows.length := by
              rw [zip_len_eq _ (by rw [length_colVals, length_colVals]), length_colVals]
            have hwf1 : (setCol mid "Rooms_Per_Household"
                (List.zipWith Val.div (colVals mid it) (colVals mid ihh))).WF :=
              setCol_WF hwfm
            have hlen2 : (List.zipWith Val.div
                (colVals (setCol mid "Rooms_Per_Household"
                  (List.zipWith Val.div (colVals mid it) (colVals mid ihh))) ib)
                (colVals (setCol mid "Rooms_Per_Household"
                  (List.zipWith Val.div (colVals mid it) (colVals mid ihh))) it2)).length
                = (setCol mid "Rooms_Per_Household"
                  (List.zipWith Val.div (colVals mid it) (colVals mid ihh))).rows.length := by
              rw [zip_len_eq _ (by rw [length_colVals, length_colVals]), length_colVals]
            refine ⟨?_, ?_, ?_, ?_⟩
            · exact setCol_mem_mono _ _ (setCol_mem_self mid _ _)
            · exact setCol_mem_self _ _ _
            · rw [setCol_colValsByName_ne _ "Bedrooms_Per_Room" "Rooms_Per_Household" _
                  (by decide) hwf1 hlen2,
                setCol_colValsByName_self mid _ _ hwfm hlen1,
                setCol_colValsByName_ne _ "Bedrooms_Per_Room" "total_rooms" _
                  (by decide) hwf1 hlen2,
                setCol_colValsByName_ne _ "Bedrooms_Per_Room" "households" _
                  (by decide) hwf1 hlen2,
                setCol_colValsByName_ne mid "Rooms_Per_Household" "total_rooms" _
                  (by decide) hwfm hlen1,
                setCol_colValsByName_ne mid "Rooms_Per_Household" "households" _
                  (by decide) hwfm hlen1,
                colValsByName_eq _ hit, colValsByName_eq _ hih]
            · rw [setCol_colValsByName_self _ _ _ hwf1 hlen2,
                setCol_colValsByName_ne _ "Bedrooms_Per_Room" "total_bedrooms" _
                  (by decide) hwf1 hlen2,
                setCol_colValsByName_ne _ "Bedrooms_Per_Room" "total_rooms" _
                  (by decide) hwf1 hlen2,
                colValsByName_eq _ hib, colValsByName_eq _ hit2]

/-- C5, witness data. -/
def dfC5 : DF :=
  ⟨["total_rooms", "households", "total_bedrooms"], [[Val.num 10, Val.num 2, Val.num 3]]⟩

/-- C5, the preprocessed witness data. -/
def dfC5Out : DF :=
  ⟨["total_rooms", "households", "total_bedrooms",
    "Rooms_Per_Household", "Bedrooms_Per_Room"],
    [[Val.num 10, Val.num 2, Val.num 3, Val.num 5, Val.num (3/10)]]⟩

/-- C5, witness. -/
theorem preprocess_derived_cols_app :
    "Rooms_Per_Household" ∈ dfC5Out.cols ∧ "Bedrooms_Per_Room" ∈ dfC5Out.cols ∧
    colValsByName dfC5Out "Rooms_Per_Household"
      = List.zipWith Val.div (colValsByName dfC5Out "total_rooms")
          (colValsByName dfC5Out "households") ∧
    colValsByName dfC5Out "Bedrooms_Per_Room"
      = List.zipWith Val.div (colValsByName dfC5Out "total_bedrooms")
          (colValsByName dfC5Out "total_rooms") :=
  preprocess_derived_cols dfC5 "mean" dfC5Out
    (by with_unfolding_all decide) (by with_unfolding_all decide)

/-- C6: whenever the requested column list contains a name absent from the
dataset, `handle_outliers` fails with a missing-column error naming an
absent column. -/
theorem handle_outliers_missing_col (df : DF) (cols : List String)
    (hex : ∃ c ∈ cols, c ∉ df.cols) :
    ∃ c, c ∈ cols ∧ c ∉ df.cols ∧ handle_outliers df cols = .error (.keyError c) := by
  induction cols generalizing df with
  | nil => simp at hex
  | cons c cs ih =>
    by_cases hc : c ∈ df.cols
    · obtain ⟨c', hc', hnot⟩ := hex
      rcases List.mem_cons.mp hc' with rfl | hc'
      · exact absurd hc hnot
      · obtain ⟨c'', h1, h2, h3⟩ := ih (stepCol df c)
          ⟨c', hc', by rwa [stepCol_cols]⟩
        rw [stepCol_cols] at h2
        exact ⟨c'', by simp [h1], h2, by rwa [handle_outliers_cons_mem hc]⟩
    · exact ⟨c, by simp, hc, handle_outliers_cons_not_mem hc cs⟩

/-- C6, witness. -/
theorem handle_outliers_missing_col_app :
    ∃ c, c ∈ ["b"] ∧ c ∉ (⟨["a"], []⟩ : DF).cols ∧
      handle_outliers ⟨["a"], []⟩ ["b"] = .error (.keyError c) :=
  handle_outliers_missing_col ⟨["a"], []⟩ ["b"] ⟨"b", by decide, by decide⟩

/-- C7: neither `preprocess_data` nor `handle_outliers` mutates the
caller's DataFrame object: in the heap model, whether the call returns
normally or fails, the object the caller passed in is unchanged — both
bodies copy the argument first and write only to the fresh working
object. -/
theorem no_mutation_of_input (h : List DF) (r : Nat) (s : String) (cs : List String)
    (hr : r < h.length) :
    hGet ((preprocessProg h r s).1) r = hGet h r ∧
    hGet ((handleOutliersProg h r cs).1) r = hGet h r := by
  have hr1 : r < (h ++ [hGet h r]).length := by
    rw [List.length_append]; omega
  have hne1 : r ≠ h.length := by omega
  constructor
  · unfold preprocessProg
    by_cases hmem : "median_house_value" ∈ (hGet (h ++ [hGet h r]) h.length).cols
    · rw [if_pos hmem]
      have hne2 : r ≠ (h ++ [hGet h r]).length := by
        rw [List.length_append]; omega
      rw [preprocessCore_fst hne2, hGet_append hr1, hGet_append hr]
    · rw [if_neg hmem, preprocessCore_fst hne1, hGet_append hr]
  · unfold handleOutliersProg
    rw [hoAuxH_fst hr1, hGet_append hr]

/-- C7, witness. -/
theorem no_mutation_of_input_app :
    hGet ((preprocessProg [⟨["a"], [[Val.num 1]]⟩] 0 "mean").1) 0
      = hGet [⟨["a"], [[Val.num 1]]⟩] 0 ∧
    hGet ((handleOutliersProg [⟨["a"], [[Val.num 1]]⟩] 0 ["a"]).1) 0
      = hGet [⟨["a"], [[Val.num 1]]⟩] 0 :=
  no_mutation_of_input [⟨["a"], [[Val.num 1]]⟩] 0 "mean" ["a"] (by decide)

theorem zip_sq_self_sum (l : List ℚ) :
    (List.zipWith (fun a b => (a - b) * (a - b)) l l).sum = 0 := by
  induction l with
  | nil => rfl
  | cons x l ih => simp [ih]

theorem evaluate_model_ok {y_test y_pred : List ℚ}
    (hck : checkRegTargets y_test y_pred = .ok ()) :
    evaluate_model y_test y_pred
      = .ok [("R2", roundV4 (r2Val y_test y_pred)),
             ("MSE", roundV4 (mseVal y_test y_pred))] := by
  unfold evaluate_model r2_score mean_squared_error
  rw [hck]

theorem checkRegTargets_ok {y_test y_pred : List ℚ}
    (hlen : y_test.length = y_pred.length) (hne : y_test ≠ []) :
    checkRegTargets y_test y_pred = .ok () := by
  unfold checkRegTargets
  rw [if_neg (by simp [hlen]), if_neg (by simp [hne])]

/-- C8, counterexample: with a single held-out sample and perfect
predictions, `evaluate_model` returns `R2 = NaN` (sklearn's
fewer-than-two-samples branch), not `R2 = 1.0`; and on empty input it
raises a `ValueError` instead of returning a metrics record. -/
theorem evaluate_model_degenerate :
    evaluate_model [5] [5] = .ok [("R2", Val.nan), ("MSE", Val.num 0)] ∧
    Val.nan ≠ Val.num 1 ∧
    evaluate_model ([] : List ℚ) []
      = .error (.valueError "Found array with 0 samples.") := by
  refine ⟨by with_unfolding_all decide, by decide, by with_unfolding_all decide⟩

/-- C8, amended: when the held-out targets and predictions are nonempty
and of equal length, `evaluate_model` returns a record with exactly the
keys `R2` and `MSE`, in that order, holding the two scores rounded to 4
decimal places (NaN rounds to NaN); on perfect predictions `MSE = 0.0`,
and `R2 = 1.0` provided there are at least two samples — with a single
sample `R2` is NaN. -/
theorem evaluate_model_spec (y_test y_pred : List ℚ)
    (hlen : y_test.length = y_pred.length) (hne : y_test ≠ []) :
    evaluate_model y_test y_pred
      = .ok [("R2", roundV4 (r2Val y_test y_pred)),
             ("MSE", roundV4 (mseVal y_test y_pred))] ∧
    (evaluate_model y_test y_pred).map (fun l => l.map Prod.fst) = .ok ["R2", "MSE"] ∧
    (y_pred = y_test → evaluate_model y_test y_pred
      = .ok [("R2", if y_test.length < 2 then Val.nan else Val.num 1),
             ("MSE", Val.num 0)]) := by
  have heval := evaluate_model_ok (checkRegTargets_ok hlen hne)
  refine ⟨heval, by rw [heval]; rfl, ?_⟩
  rintro rfl
  have hss : sqErrSum y_pred y_pred = 0 := by
    unfold sqErrSum
    exact zip_sq_self_sum y_pred
  have h3 : roundQ4 1 = 1 := by with_unfolding_all decide
  have h4 : roundQ4 0 = 0 := by with_unfolding_all decide
  have hmval : roundV4 (mseVal y_pred y_pred) = Val.num 0 := by
    unfold mseVal
    rw [hss, zero_div]
    simp [roundV4, h4]
  have hrval : roundV4 (r2Val y_pred y_pred)
      = (if y_pred.length < 2 then Val.nan else Val.num 1) := by
    unfold r2Val
    by_cases hl : y_pred.length < 2
    · rw [if_pos hl, if_pos hl]
      rfl
    · rw [if_neg hl, if_neg hl]
      by_cases ht : totSqSum y_pred = 0
      · rw [if_pos ht, if_pos hss]
        simp [roundV4, h3]
      · rw [if_neg ht, hss, zero_div, sub_zero]
        simp [roundV4, h3]
  rw [heval, hrval, hmval]

/-- C8, witness for the amended theorem (two samples, perfect
predictions). -/
theorem evaluate_model_spec_app :
    evaluate_model [3, 4] [3, 4]
      = .ok [("R2", roundV4 (r2Val [3, 4] [3, 4])),
             ("MSE", roundV4 (mseVal [3, 4] [3, 4]))] ∧
    (evaluate_model [3, 4] [3, 4]).map (fun l => l.map Prod.fst) = .ok ["R2", "MSE"] ∧
    (([3, 4] : List ℚ) = [3, 4] → evaluate_model [3, 4] [3, 4]
      = .ok [("R2", if ([3, 4] : List ℚ).length < 2 then Val.nan else Val.num 1),
             ("MSE", Val.num 0)]) :=
  evaluate_model_spec [3, 4] [3, 4] rfl (by decide)

/-- C9: the category-count plot validation raises its missing-key error
naming the requested column exactly when the name is not a column and no
column name contains it as a substring; when some column name does contain
it, validation passes. -/
theorem plot_categorical_counts_check_spec (cols : List String) (column : String) :
    (plot_categorical_counts_check cols column = .error (.keyError column) ↔
      column ∉ cols ∧ ∀ c ∈ cols, strIn column c = false) ∧
    ((∃ c ∈ cols, strIn column c = true) →
      plot_categorical_counts_check cols column = .ok ()) := by
  unfold plot_categorical_counts_check
  by_cases hmem : column ∈ cols
  · rw [if_pos hmem]
    refine ⟨⟨fun hcontra => absurd hcontra (by simp), fun hcontra => ?_⟩, fun _ => rfl⟩
    exact absurd hmem hcontra.1
  · rw [if_neg hmem]
    by_cases hemp : (cols.filter (fun c => strIn column c)).isEmpty
    · rw [if_pos hemp]
      have hall : ∀ c ∈ cols, strIn column c = false := by
        intro c hc
        have := List.filter_eq_nil_iff.mp (List.isEmpty_iff.mp hemp) c hc
        simpa using this
      refine ⟨⟨fun _ => ⟨hmem, hall⟩, fun _ => rfl⟩, ?_⟩
      rintro ⟨c, hc, hsub⟩
      exact absurd hsub (by simp [hall c hc])
    · rw [if_neg hemp]
      refine ⟨⟨fun hcontra => absurd hcontra (by simp), fun hcontra => ?_⟩, fun _ => rfl⟩
      refine absurd ?_ hemp
      rw [List.isEmpty_iff, List.filter_eq_nil_iff]
      intro c hc
      simp [hcontra.2 c hc]

/-- C9, witness (the substring branch accepts a one-hot-style column). -/
theorem plot_categorical_counts_check_app :
    plot_categorical_counts_check ["price_cat"] "cat" = .ok () :=
  (plot_categorical_counts_check_spec ["price_cat"] "cat").2
    ⟨"price_cat", by decide, by decide⟩

/-- C10, counterexample: on a dataset with no missing values at all,
`preprocess_data` does not return normally for every strategy — here it
fails with a missing-column error while building the derived features, so
"accepts any fill_strategy string ... and returns normally" is false as
stated. -/
theorem preprocess_no_missing_not_always_ok :
    preprocess_data ⟨[], []⟩ "foo" = .error (.keyError "total_rooms") := by
  with_unfolding_all decide

/-- C10, amended: on a dataset in which no numeric column contains a
missing value, `preprocess_data` never raises the invalid-argument error,
for any fill strategy string; and if the three ratio source columns are
present it returns normally. -/
theorem preprocess_no_missing_no_value_error (df : DF) (s : String)
    (hno : ∀ i, i < df.cols.length → (colVals df i).any Val.isNan = false) :
    (∀ m, preprocess_data df s ≠ .error (.valueError m)) ∧
    ("total_rooms" ∈ df.cols → "households" ∈ df.cols → "total_bedrooms" ∈ df.cols →
      ∃ out, preprocess_data df s = .ok out) := by
  have hfl : fillLoop (renameDF df) s = .ok (renameDF df) := by
    unfold fillLoop
    refine fillCols_no_missing (fun i hi => ?_)
    rw [renameDF_colVals]
    refine hno i ?_
    rw [← renameDF_cols_length df]
    exact List.mem_range.mp hi
  have hpp : preprocess_data df s = addDerived (renameDF df) := by
    unfold preprocess_data
    rw [hfl]
  constructor
  · intro m
    rw [hpp]
    exact addDerived_not_valueError _ m
  · intro h1 h2 h3
    rw [hpp]
    exact addDerived_ok_of_mem (mem_renameDF h1 (by decide))
      (mem_renameDF h2 (by decide)) (mem_renameDF h3 (by decide))

/-- C10, witness for the amended theorem. -/
theorem preprocess_no_missing_no_value_error_app :
    (∀ m, preprocess_data ⟨["total_rooms", "households", "total_bedrooms"],
        [[Val.num 1, Val.num 1, Val.num 1]]⟩ "foo" ≠ .error (.valueError m)) ∧
    ("total_rooms" ∈ (⟨["total_rooms", "households", "total_bedrooms"],
        [[Val.num 1, Val.num 1, Val.num 1]]⟩ : DF).cols →
      "households" ∈ (⟨["total_rooms", "households", "total_bedrooms"],
        [[Val.num 1, Val.num 1, Val.num 1]]⟩ : DF).cols →
      "total_bedrooms" ∈ (⟨["total_rooms", "households", "total_bedrooms"],
        [[Val.num 1, Val.num 1, Val.num 1]]⟩ : DF).cols →
      ∃ out, preprocess_data ⟨["total_rooms", "households", "total_bedrooms"],
        [[Val.num 1, Val.num 1, Val.num 1]]⟩ "foo" = .ok out) :=
  preprocess_no_missing_no_value_error _ "foo" (fun i hi => by
    have hi3 : i < 3 := hi
    rcases i with _ | _ | _ | n
    · decide
    · decide
    · decide
    · omega)

end Housing
